import Mathlib

/-!
Verification of the audio-analysis core of the QuantumLive repository
(`src/backend/core/audio_analysis.py` and `src/backend/core/metadata.py`),
shallowly embedded in Lean 4.

Python floats are modelled as exact rationals (`ℚ`), sample buffers as
`List ℚ`, sample rates as `ℕ`.  `librosa.frames_to_time` with the default
hop length 512 sends frame `f` to `512 * f / sr` seconds, and
`librosa.get_duration(y=y, sr=sr)` is `len(y) / sr`; both are embedded
directly.  The beat tracker and the two-quality loader are external
collaborators and are modelled as an explicit environment (`AudioEnv`).
-/

set_option allowUnsafeReducibility true
attribute [semireducible] Rat.add Rat.mul Rat.inv Rat.div Rat.sub Rat.neg

namespace QuantumLive

/-- Model of `metadata.Cue`: a named waveform segment with positions in seconds. -/
structure Cue where
  nombre : String
  inicio : ℚ
  fin : ℚ
  forma : List ℚ
deriving Repr, DecidableEq

/-- Model of `metadata.AnalysisResult`: summary of the automatic audio analysis. -/
structure AnalysisResult where
  bpm : ℚ
  duracion : ℚ
  sample_rate : ℕ
  cues : List Cue
deriving Repr, DecidableEq

/-- Pydantic validation of `metadata.Cue`: field constraints `inicio ≥ 0`,
`fin > 0`, and the `validar_fin` validator requiring `fin > inicio`.
A violation raises at construction time, modelled as `none`. -/
def mkCue (nombre : String) (inicio fin : ℚ) (forma : List ℚ) : Option Cue :=
  if 0 ≤ inicio ∧ 0 < fin ∧ inicio < fin then
    some ⟨nombre, inicio, fin, forma⟩
  else
    none

/-- Pydantic validation of `metadata.AnalysisResult`: `bpm > 0`,
`duracion > 0`, `sample_rate > 0`; a violation raises, modelled as `none`. -/
def mkAnalysisResult (bpm duracion : ℚ) (sample_rate : ℕ) (cues : List Cue) :
    Option AnalysisResult :=
  if 0 < bpm ∧ 0 < duracion ∧ 0 < sample_rate then
    some ⟨bpm, duracion, sample_rate, cues⟩
  else
    none

/-- Embedding of `_downsample(segmento, max_muestras)`:
empty input gives `[]`; if `max_muestras ≤ 0` or the size is at most
`max_muestras` the segment is returned unchanged; otherwise the values at
`np.linspace(0, size-1, num=max_muestras, dtype=int)` are returned.
`linspace` places `i * (size-1) / (num-1)` for `i < num` (and `0` when
`num = 1`), truncated to an integer index; with `ℕ` division the
`num = 1` case coincides with the formula since division by zero is zero. -/
def _downsample (segmento : List ℚ) (max_muestras : ℤ) : List ℚ :=
  if segmento.length = 0 then []
  else if max_muestras ≤ 0 ∨ (segmento.length : ℤ) ≤ max_muestras then segmento
  else
    (List.range max_muestras.toNat).map fun i =>
      segmento.getD (i * (segmento.length - 1) / (max_muestras.toNat - 1)) 0

/-- Embedding of `librosa.frames_to_time(f, sr=sr)` with the default hop length 512:
`f * 512 / sr` seconds. -/
def frames_to_time (sr : ℕ) (f : ℕ) : ℚ := (512 * f : ℚ) / sr

/-- The candidate-building loop of `_intervalos_desde_beats`:
`for indice in range(0, len(tiempos) - 1, paso)` pairs `tiempos[indice]`
with `tiempos[min(indice + paso, len(tiempos) - 1)]` and keeps the pair
unless its span is `≤ 1e-3`.  `range(0, m, paso)` visits
`k * paso` for `k < ⌈m / paso⌉`. -/
def candidatos (tiempos : List ℚ) (paso : ℕ) : List (ℚ × ℚ) :=
  (List.range ((tiempos.length - 1 + paso - 1) / paso)).filterMap fun k =>
    let indice := k * paso
    let inicio := tiempos.getD indice 0
    let fin_indice := min (indice + paso) (tiempos.length - 1)
    let fin := tiempos.getD fin_indice 0
    if fin - inicio ≤ 1 / 1000 then none else some (inicio, fin)

/-- Embedding of `_intervalos_desde_beats(beat_frames, sr, duracion, beats_por_cue)`:
empty beats give the full-duration interval; otherwise beat frames become
times, candidates are built with stride `paso = max(1, beats_por_cue)`,
an empty candidate list falls back to the full-duration interval, and
otherwise the last interval is stretched to `duracion` when it ends
short of it. -/
def _intervalos_desde_beats (beat_frames : List ℕ) (sr : ℕ) (duracion : ℚ)
    (beats_por_cue : ℤ) : List (ℚ × ℚ) :=
  if beat_frames.isEmpty then [(0, duracion)]
  else
    let tiempos := beat_frames.map (frames_to_time sr)
    let paso := (max 1 beats_por_cue).toNat
    let intervalos := candidatos tiempos paso
    if intervalos.isEmpty then [(0, duracion)]
    else
      let ultimo := intervalos.getLastD (0, 0)
      if ultimo.2 < duracion then intervalos.dropLast ++ [(ultimo.1, duracion)]
      else intervalos

/-- Total duration seen by `_extraer_cues`:
`float(len(y) / sr) if sr else 0.0`. -/
def duracion_total (y : List ℚ) (sr : ℕ) : ℚ :=
  if sr ≠ 0 then (y.length : ℚ) / sr else 0

/-- The loop body of `_extraer_cues`, with the `enumerate` counter made
explicit.  Each interval is clipped (`inicio_seg = max(0, inicio)`,
`fin_seg = min(fin, duracion_total)`), skipped when `fin_seg ≤ inicio_seg`,
sliced as `y[int(inicio_seg*sr) : int(fin_seg*sr)]`, skipped when the
slice is empty, and otherwise emitted as a `Cue` named by the loop
counter.  `int()` on the non-negative times is truncation, i.e. floor. -/
def extraerAux (y : List ℚ) (sr : ℕ) (dur : ℚ) (max_muestras : ℤ) :
    ℕ → List (ℚ × ℚ) → List Cue
  | _, [] => []
  | indice, iv :: rest =>
    let inicio_seg := max 0 iv.1
    let fin_seg := min iv.2 dur
    if fin_seg ≤ inicio_seg then
      extraerAux y sr dur max_muestras (indice + 1) rest
    else
      let inicio_muestra := (⌊inicio_seg * sr⌋).toNat
      let fin_muestra := (⌊fin_seg * sr⌋).toNat
      let segmento := (y.drop inicio_muestra).take (fin_muestra - inicio_muestra)
      if segmento.length = 0 then
        extraerAux y sr dur max_muestras (indice + 1) rest
      else
        { nombre := "cue_" ++ toString indice
          inicio := inicio_seg
          fin := fin_seg
          forma := _downsample segmento max_muestras } ::
          extraerAux y sr dur max_muestras (indice + 1) rest

/-- Embedding of `_extraer_cues(y, sr, intervalos, max_muestras)`: the total
duration is `len(y) / sr` when `sr` is nonzero and `0.0` otherwise, then
the enumerated interval loop runs from counter `0`. -/
def _extraer_cues (y : List ℚ) (sr : ℕ) (intervalos : List (ℚ × ℚ))
    (max_muestras : ℤ) : List Cue :=
  extraerAux y sr (duracion_total y sr) max_muestras 0 intervalos

/-- The emission test of the `_extraer_cues` loop for one interval: the
clipped interval is non-degenerate and the sliced segment is non-empty.
Exactly the intervals passing this test produce a `Cue`. -/
def emite (y : List ℚ) (sr : ℕ) (dur : ℚ) (iv : ℚ × ℚ) : Bool :=
  let inicio_seg := max 0 iv.1
  let fin_seg := min iv.2 dur
  let inicio_muestra := (⌊inicio_seg * sr⌋).toNat
  let fin_muestra := (⌊fin_seg * sr⌋).toNat
  !decide (fin_seg ≤ inicio_seg) &&
    !decide (((y.drop inicio_muestra).take (fin_muestra - inicio_muestra)).length = 0)

/-- The interval-cleaning comprehension of `analizar_audio`
(lines 118–123): `[(max(0.0, inicio), min(fin, duracion)) for inicio, fin
in intervalos if fin > inicio]` — the `fin > inicio` test is evaluated on
the raw values, before clipping. -/
def limpiar_intervalos (intervalos : List (ℚ × ℚ)) (duracion : ℚ) :
    List (ℚ × ℚ) :=
  (intervalos.filter fun iv => iv.1 < iv.2).map fun iv =>
    (max 0 iv.1, min iv.2 duracion)

/-- The mode-selection test of `analizar_audio` (line 106):
`need_full_audio = bool(intervalos) or auto_cues`.  Python truthiness of
a list is non-emptiness (`None` is modelled as the empty list, which has
the same truth value). -/
def need_full_audio (intervalos : List (ℚ × ℚ)) (auto_cues : Bool) : Bool :=
  !intervalos.isEmpty || auto_cues

/-- The external collaborators of the orchestrator: the two-quality
loader (`librosa.load` at native quality and at `sr=22050, mono=True`)
and the beat tracker `librosa.beat.beat_track`, returning an estimated
tempo and the beat frame positions.  `librosa.get_duration(y=y, sr=sr)`
is `len(y) / sr` and is embedded directly. -/
structure AudioEnv where
  loadFull : List ℚ × ℕ
  loadFast : List ℚ × ℕ
  beatTrack : List ℚ → ℕ → ℚ × List ℕ

/-- Embedding of `analizar_audio(ruta, intervalos, auto_cues, beats_por_cue,
max_muestras_cue)` for an existing file, with the external calls supplied
by `env`.  Mirrors lines 106–136: mode selection, load, beat track,
duration, interval resolution (explicit / beat-derived / none), cue
extraction guarded by `if intervalos_limpios`, and result assembly. -/
def analizar_audio (env : AudioEnv) (intervalos : List (ℚ × ℚ))
    (auto_cues : Bool) (beats_por_cue : ℤ) (max_muestras_cue : ℤ) :
    AnalysisResult :=
  let carga := if need_full_audio intervalos auto_cues then env.loadFull
    else env.loadFast
  let y := carga.1
  let sr := carga.2
  let pista := env.beatTrack y sr
  let tempo := pista.1
  let beat_frames := pista.2
  let duracion : ℚ := (y.length : ℚ) / sr
  let intervalos_limpios :=
    if !intervalos.isEmpty then limpiar_intervalos intervalos duracion
    else if auto_cues then
      _intervalos_desde_beats beat_frames sr duracion beats_por_cue
    else []
  let cues := if !intervalos_limpios.isEmpty then
      _extraer_cues y sr intervalos_limpios max_muestras_cue
    else []
  { bpm := tempo, duracion := duracion, sample_rate := sr, cues := cues }

/-- Embedding of `extraer_bpm(ruta)`: `analizar_audio(ruta,
auto_cues=False).bpm`, with `intervalos` left at its default `None`. -/
def extraer_bpm (env : AudioEnv) : ℚ :=
  (analizar_audio env [] false 4 2048).bpm

/-- Embedding of `calcular_cues(ruta, intervalos, max_muestras_cue)`:
`analizar_audio(ruta, intervalos=intervalos, auto_cues=False,
max_muestras_cue=max_muestras_cue).cues`. -/
def calcular_cues (env : AudioEnv) (intervalos : List (ℚ × ℚ))
    (max_muestras_cue : ℤ) : List Cue :=
  (analizar_audio env intervalos false 4 max_muestras_cue).cues

/-- A concrete environment used in sanity checks and witnesses: the
full-quality load has four samples at 1 Hz, the fast load has two samples
at 2 Hz, and the beat tracker reports tempo 120 with no beats. -/
def envEjemplo : AudioEnv :=
  { loadFull := ([1, 2, 3, 4], 1)
    loadFast := ([5, 6], 2)
    beatTrack := fun _ _ => (120, []) }

/-! Sanity checks of the embedding on concrete inputs. -/

example : _downsample [1, 2, 3, 4, 5] 2 = [1, 5] := by decide
example : _downsample [1, 2, 3, 4, 5] 0 = [1, 2, 3, 4, 5] := by decide
example : _downsample [1, 2, 3, 4, 5] 3 = [1, 3, 5] := by decide
example : _downsample ([] : List ℚ) 3 = [] := by decide
example : _downsample [1, 2, 3] 7 = [1, 2, 3] := by decide

example : _intervalos_desde_beats [] 22050 10 4 = [(0, 10)] := by decide

example : _intervalos_desde_beats [5] 22050 10 4 = [(0, 10)] := by decide

example :
    _intervalos_desde_beats [100, 200] 22050 10 4 = [(1024 / 441, 10)] := by
  decide

/-- Spec §8.1 example: beat times `[0, 0.5, …, 3.0]`, `beats_per_cue = 4`,
`duration = 3.2` give `[(0, 2.0), (2.0, 3.2)]`.  With hop 512 and
`sr = 1024` each frame is half a second. -/
example :
    _intervalos_desde_beats [0, 1, 2, 3, 4, 5, 6] 1024 (16 / 5) 4 =
      [(0, 2), (2, 16 / 5)] := by decide

example :
    _extraer_cues [1, 2, 3, 4] 1 [(0, 4)] 0 =
      [⟨"cue_0", 0, 4, [1, 2, 3, 4]⟩] := by decide

example :
    _extraer_cues [1, 2, 3, 4] 1 [(2, 1), (1, 3), (0, 9)] 0 =
      [⟨"cue_1", 1, 3, [2, 3]⟩, ⟨"cue_2", 0, 4, [1, 2, 3, 4]⟩] := by decide

example : _extraer_cues [1, 2, 3, 4] 0 [(0, 4)] 0 = [] := by decide

example : limpiar_intervalos [(-5, -1)] 10 = [(0, -1)] := by decide
example : limpiar_intervalos [(-1, 3), (4, 2), (8, 12)] 10 =
    [(0, 3), (8, 10)] := by decide

example :
    calcular_cues envEjemplo [(1, 3)] 0 = [⟨"cue_0", 1, 3, [2, 3]⟩] := by
  decide

example : (analizar_audio envEjemplo [] false 4 2048).sample_rate = 2 := by
  decide

/-! Helper lemmas. -/

/-- Fetching with a default satisfies any property enjoyed by all list
elements and by the default. -/
lemma getD_prop {α : Type} {P : α → Prop} (l : List α) (i : ℕ) (d : α)
    (hl : ∀ t ∈ l, P t) (hd : P d) : P (l.getD i d) := by
  rcases lt_or_ge i l.length with h | h
  · rw [List.getD_eq_getElem l d h]
    exact hl _ (List.getElem_mem h)
  · rw [List.getD_eq_default l d h]
    exact hd

/-- With total duration `0`, every interval of the extraction loop is
skipped: its clipped end is at most `0` and its clipped start at least `0`. -/
lemma extraerAux_dur_cero (y : List ℚ) (sr : ℕ) (m : ℤ) :
    ∀ (k : ℕ) (ivs : List (ℚ × ℚ)), extraerAux y sr 0 m k ivs = [] := by
  intro k ivs
  induction ivs generalizing k with
  | nil => rfl
  | cons iv rest ih =>
    have h : min iv.2 (0 : ℚ) ≤ max 0 iv.1 :=
      le_trans (min_le_right _ _) (le_max_left _ _)
    simp only [extraerAux, h, if_true]
    exact ih _

/-! Claim C10. -/

/-- C10: called with sample rate `0`, the Segment Extractor takes the total
duration to be `0`, skips every interval (clipped end ≤ clipped start) and
returns the empty cue list, with no division by zero. -/
theorem C10_sr_cero_sin_cues (y : List ℚ) (ivs : List (ℚ × ℚ)) (m : ℤ) :
    _extraer_cues y 0 ivs m = [] := by
  unfold _extraer_cues
  have h : duracion_total y 0 = 0 := by simp [duracion_total]
  rw [h]
  exact extraerAux_dur_cero y 0 m 0 ivs

/-! Claim C6. -/

/-- C6: if the beat list is empty, or every candidate interval is discarded
by the 1-millisecond minimum-span filter, the Interval Deriver returns
exactly the single interval `(0, duracion)`. -/
theorem C6_fallback_intervalo_completo (beat_frames : List ℕ) (sr : ℕ)
    (duracion : ℚ) (beats_por_cue : ℤ)
    (h : beat_frames = [] ∨
      candidatos (List.map (frames_to_time sr) beat_frames)
        ((max 1 beats_por_cue).toNat) = []) :
    _intervalos_desde_beats beat_frames sr duracion beats_por_cue =
      [(0, duracion)] := by
  rcases h with h | h
  · subst h; rfl
  · unfold _intervalos_desde_beats
    cases hb : beat_frames.isEmpty
    · simp [h]
    · simp

/-- Witness for C6: a single beat yields no candidates, hence the
full-duration fallback. -/
theorem C6_fallback_witness :
    candidatos (List.map (frames_to_time 22050) [5]) ((max 1 (4 : ℤ)).toNat)
        = [] ∧
      _intervalos_desde_beats [5] 22050 10 4 = [(0, 10)] :=
  ⟨by decide, C6_fallback_intervalo_completo [5] 22050 10 4 (Or.inr (by decide))⟩

/-! Claim C2. -/

/-- Counterexample to C2: with `duration = 10`, the raw interval
`(-5, -1)` passes the pre-clip test `fin > inicio` and survives as the
degenerate clipped interval `(0, -1)`, so the discard test is *not*
evaluated on the post-clip values. -/
theorem C2_descartar_cex :
    limpiar_intervalos [(-5, -1)] 10 = [(0, -1)] ∧
      ¬(∀ p ∈ limpiar_intervalos [(-5, -1)] (10 : ℚ), p.1 < p.2) := by
  constructor
  · decide
  · decide

/-- C2 (amended): each provided interval is first tested on its *raw*
values — discarded when raw `end ≤ start` — and the survivors are then
clipped to `(max 0 start, min end duration)`, in input order. -/
theorem C2_descartar_pre_clip (ivs : List (ℚ × ℚ)) (dur : ℚ) :
    limpiar_intervalos ivs dur =
      ivs.filterMap fun iv =>
        if iv.1 < iv.2 then some (max 0 iv.1, min iv.2 dur) else none := by
  induction ivs with
  | nil => rfl
  | cons iv rest ih =>
    by_cases h : iv.1 < iv.2
    · simpa [limpiar_intervalos, List.filter_cons, List.filterMap_cons, h]
        using ih
    · simpa [limpiar_intervalos, List.filter_cons, List.filterMap_cons, h]
        using ih

/-! Claim C9. -/

/-- C9: `extraer_bpm` returns exactly the tempo estimated on the fast-mode
load, and the underlying analysis populates no cues. -/
theorem C9_bpm_sin_cues (env : AudioEnv) :
    extraer_bpm env = (env.beatTrack env.loadFast.1 env.loadFast.2).1 ∧
      (analizar_audio env [] false 4 2048).cues = [] := by
  constructor
  · rfl
  · rfl

/-! Claim C5. -/

/-- Counterexample to C5: with the empty interval list, `calcular_cues`
reaches `analizar_audio` with `need_full_audio = False`, so the *fast*
load (here at 2 Hz) is used instead of the full-fidelity one (here at
1 Hz). -/
theorem C5_modo_rapido_cex :
    need_full_audio [] false = false ∧
      (analizar_audio envEjemplo [] false 4 2048).sample_rate = 2 ∧
      envEjemplo.loadFull.2 = 1 := by
  refine ⟨rfl, ?_, rfl⟩
  decide

/-- C5 (amended): `calcular_cues` forces `auto_cues` off; for a *non-empty*
interval list it selects the full-fidelity load and its output is exactly
the extraction over the clipped pre-filtered subset of the given
intervals, in their given order (never beat-derived); for the empty list
it returns no cues (via the fast load path). -/
theorem C5_fidelidad_intervalos (env : AudioEnv) (ivs : List (ℚ × ℚ))
    (M : ℤ) :
    (ivs ≠ [] →
      need_full_audio ivs false = true ∧
        calcular_cues env ivs M =
          _extraer_cues env.loadFull.1 env.loadFull.2
            (limpiar_intervalos ivs
              ((env.loadFull.1.length : ℚ) / env.loadFull.2)) M) ∧
      calcular_cues env [] M = [] := by
  constructor
  · intro h
    have hne : ivs.isEmpty = false := by
      cases ivs with
      | nil => exact absurd rfl h
      | cons a l => rfl
    constructor
    · simp [need_full_audio, hne]
    · unfold calcular_cues analizar_audio
      simp only [need_full_audio, hne, Bool.not_false, Bool.true_or, if_true]
      by_cases hl : (limpiar_intervalos ivs
          ((env.loadFull.1.length : ℚ) / env.loadFull.2)).isEmpty
      · have hnil : limpiar_intervalos ivs
            ((env.loadFull.1.length : ℚ) / env.loadFull.2) = [] := by
          simpa using hl
        simp [hl, hnil, _extraer_cues, extraerAux]
      · simp [hl]
  · rfl

/-- Witness for C5: the non-empty case instantiated in the concrete
environment. -/
theorem C5_fidelidad_witness :
    need_full_audio [(1, 3)] false = true ∧
      calcular_cues envEjemplo [(1, 3)] 0 =
        _extraer_cues envEjemplo.loadFull.1 envEjemplo.loadFull.2
          (limpiar_intervalos [(1, 3)]
            ((envEjemplo.loadFull.1.length : ℚ) / envEjemplo.loadFull.2)) 0 ∧
      calcular_cues envEjemplo [] 0 = [] := by
  obtain ⟨h1, h2⟩ :=
    (C5_fidelidad_intervalos envEjemplo [(1, 3)] 0).1 (by decide)
  exact ⟨h1, h2, (C5_fidelidad_intervalos envEjemplo [] 0).2⟩

/-! Claim C1. -/

/-- Every retained candidate has a non-negative start (beat times are
non-negative) and an end at most `D` when every beat time is at most `D`
and `0 ≤ D`. -/
lemma candidatos_cotas (tiempos : List ℚ) (paso : ℕ) (D : ℚ) (hD : 0 ≤ D)
    (h : ∀ t ∈ tiempos, 0 ≤ t ∧ t ≤ D) :
    ∀ p ∈ candidatos tiempos paso, 0 ≤ p.1 ∧ p.2 ≤ D := by
  intro p hp
  unfold candidatos at hp
  rw [List.mem_filterMap] at hp
  obtain ⟨k, _, he⟩ := hp
  dsimp only at he
  split at he
  · exact absurd he (by simp)
  · obtain rfl := Option.some_injective _ he
    refine ⟨?_, ?_⟩
    · exact getD_prop tiempos _ 0 (fun t ht => (h t ht).1) le_rfl
    · exact getD_prop tiempos _ 0 (fun t ht => (h t ht).2) hD

/-- The last element with default of a non-empty list is a member. -/
lemma getLastD_mem {α : Type} (l : List α) (d : α) (h : l ≠ []) :
    l.getLastD d ∈ l := by
  rw [List.getLastD_eq_getLast?, List.getLast?_eq_getLast l h]
  exact List.getLast_mem h

/-- Counterexample to C1: the strictly increasing beat frames `[100, 200]`
at 22050 Hz with duration `10` and grouping `4` derive the single interval
`(1024/441, 10)`, whose first start is not `0`. -/
theorem C1_cobertura_cex :
    _intervalos_desde_beats [100, 200] 22050 10 4 = [(1024 / 441, 10)] ∧
      (1024 / 441 : ℚ) ≠ 0 := by
  constructor
  · decide
  · decide

/-- C1 (amended): for every non-empty beat-frame sequence, sample rate,
positive duration and grouping factor, provided every derived beat time is
at most the duration, the Interval Deriver returns a non-empty list whose
last interval's end equals the duration exactly and whose first interval's
start is non-negative (it is the first surviving stride's beat time, which
is `0` only when that beat lies at frame `0` or the fallback applies), so
the intervals lie within `[0, duration]` but need not start at `0`. -/
theorem C1_cobertura_amended (beat_frames : List ℕ) (sr : ℕ) (duracion : ℚ)
    (beats_por_cue : ℤ) (h1 : beat_frames ≠ []) (h2 : 0 < duracion)
    (h3 : ∀ f ∈ beat_frames, frames_to_time sr f ≤ duracion) :
    _intervalos_desde_beats beat_frames sr duracion beats_por_cue ≠ [] ∧
      ((_intervalos_desde_beats beat_frames sr duracion
          beats_por_cue).getLastD (0, 0)).2 = duracion ∧
      0 ≤ ((_intervalos_desde_beats beat_frames sr duracion
          beats_por_cue).headD (0, 0)).1 := by
  have htiempos : ∀ t ∈ List.map (frames_to_time sr) beat_frames,
      0 ≤ t ∧ t ≤ duracion := by
    intro t ht
    rw [List.mem_map] at ht
    obtain ⟨f, hf, rfl⟩ := ht
    refine ⟨?_, h3 f hf⟩
    unfold frames_to_time
    exact div_nonneg (by positivity) (Nat.cast_nonneg sr)
  have hcotas := candidatos_cotas (List.map (frames_to_time sr) beat_frames)
    ((max 1 beats_por_cue).toNat) duracion (le_of_lt h2) htiempos
  have hbe : beat_frames.isEmpty = false := by
    cases beat_frames with
    | nil => exact absurd rfl h1
    | cons a l => rfl
  unfold _intervalos_desde_beats
  rw [hbe]
  simp only [Bool.false_eq_true, if_false]
  set l := candidatos (List.map (frames_to_time sr) beat_frames)
    ((max 1 beats_por_cue).toNat) with hldef
  cases hle : l.isEmpty
  · have hlne : l ≠ [] := by simpa [List.isEmpty_iff] using hle
    have hmem : l.getLastD (0, 0) ∈ l := getLastD_mem l (0, 0) hlne
    obtain ⟨hu0, huD⟩ := hcotas _ hmem
    simp only [hle, Bool.false_eq_true, if_false]
    obtain ⟨x, rest, hx⟩ := List.exists_cons_of_ne_nil hlne
    have hx0 : (0 : ℚ) ≤ x.1 := by
      refine (hcotas x ?_).1
      rw [hx]
      exact List.mem_cons_self x rest
    by_cases hlt : (l.getLastD (0, 0)).2 < duracion
    · simp only [hlt, if_true]
      refine ⟨by simp, ?_, ?_⟩
      · rw [List.getLastD_concat]
      · rw [hx]
        cases rest with
        | nil => simpa [List.getLastD] using hx0
        | cons y t => simpa [List.dropLast] using hx0
    · simp only [hlt, if_false]
      refine ⟨hlne, le_antisymm huD (not_lt.mp hlt), ?_⟩
      rw [hx]
      simpa using hx0
  · simp only [hle, if_true]
    refine ⟨by simp, by simp [List.getLastD], by simp⟩

/-- Witness for C1 (amended): beats at frames `0` and `100` of a 22050 Hz
track of duration `10`. -/
theorem C1_cobertura_witness :
    _intervalos_desde_beats [0, 100] 22050 10 4 ≠ [] ∧
      ((_intervalos_desde_beats [0, 100] 22050 10 4).getLastD (0, 0)).2
          = 10 ∧
      0 ≤ ((_intervalos_desde_beats [0, 100] 22050 10 4).headD (0, 0)).1 :=
  C1_cobertura_amended [0, 100] 22050 10 4 (by decide) (by decide) (by decide)

/-! Claims C4 and C8 share the bound lemma on the extraction loop. -/

/-- Every cue produced by the extraction loop has a non-negative start
strictly below its end, and an end at most the total duration used. -/
lemma extraerAux_cotas (y : List ℚ) (sr : ℕ) (dur : ℚ) (m : ℤ) :
    ∀ (k : ℕ) (ivs : List (ℚ × ℚ)) (c : Cue),
      c ∈ extraerAux y sr dur m k ivs →
      0 ≤ c.inicio ∧ c.inicio < c.fin ∧ c.fin ≤ dur := by
  intro k ivs
  induction ivs generalizing k with
  | nil => intro c hc; simp [extraerAux] at hc
  | cons iv rest ih =>
    intro c hc
    rw [extraerAux] at hc
    dsimp only at hc
    split at hc
    · exact ih _ c hc
    · rename_i hgt
      split at hc
      · exact ih _ c hc
      · rcases List.mem_cons.mp hc with rfl | hmem
        · exact ⟨le_max_left _ _, not_le.mp hgt, min_le_right _ _⟩
        · exact ih _ c hmem

/-- C4: with a positive sample rate, every Cue emitted by the Segment
Extractor satisfies `0 ≤ start < end ≤ duration`, where the duration is
`len(y) / sr`; degenerate intervals are never emitted. -/
theorem C4_cotas_cues (y : List ℚ) (sr : ℕ) (ivs : List (ℚ × ℚ)) (m : ℤ)
    (c : Cue) (hsr : 0 < sr) (hc : c ∈ _extraer_cues y sr ivs m) :
    0 ≤ c.inicio ∧ c.inicio < c.fin ∧ c.fin ≤ (y.length : ℚ) / sr := by
  have hdur : duracion_total y sr = (y.length : ℚ) / sr := by
    simp [duracion_total, Nat.pos_iff_ne_zero.mp hsr]
  have h := extraerAux_cotas y sr (duracion_total y sr) m 0 ivs c hc
  rwa [hdur] at h

/-- Witness for C4: the cue extracted from `[1,2,3,4]` at 1 Hz over the
interval `(0, 4)`. -/
theorem C4_cotas_cues_witness :
    0 ≤ (Cue.mk "cue_0" 0 4 [1, 2, 3, 4]).inicio ∧
      (Cue.mk "cue_0" 0 4 [1, 2, 3, 4]).inicio <
        (Cue.mk "cue_0" 0 4 [1, 2, 3, 4]).fin ∧
      (Cue.mk "cue_0" 0 4 [1, 2, 3, 4]).fin ≤
        ((([1, 2, 3, 4] : List ℚ).length : ℚ)) / ((1 : ℕ) : ℚ) :=
  C4_cotas_cues [1, 2, 3, 4] 1 [(0, 4)] 0 ⟨"cue_0", 0, 4, [1, 2, 3, 4]⟩
    (by decide) (by decide)

/-! Claim C8. -/

/-- C8: constructing a Cue with `end ≤ start` fails validation, an
AnalysisResult with non-positive `bpm`, `duracion` or `sample_rate` fails
validation, and every cue the Segment Extractor returns passes the Cue
validation (so invalid objects are never returned). -/
theorem C8_validacion_construccion :
    (∀ (nombre : String) (inicio fin : ℚ) (forma : List ℚ), fin ≤ inicio →
      mkCue nombre inicio fin forma = none) ∧
    (∀ (bpm duracion : ℚ) (sr : ℕ) (cues : List Cue),
      bpm ≤ 0 ∨ duracion ≤ 0 ∨ sr = 0 →
      mkAnalysisResult bpm duracion sr cues = none) ∧
    (∀ (y : List ℚ) (sr : ℕ) (ivs : List (ℚ × ℚ)) (m : ℤ) (c : Cue),
      c ∈ _extraer_cues y sr ivs m →
      mkCue c.nombre c.inicio c.fin c.forma = some c) := by
  refine ⟨?_, ?_, ?_⟩
  · intro n i f fo h
    unfold mkCue
    rw [if_neg]
    rintro ⟨-, -, hif⟩
    exact absurd h (not_le.mpr hif)
  · intro b d s cs h
    unfold mkAnalysisResult
    rw [if_neg]
    rintro ⟨hb, hd, hs⟩
    rcases h with h | h | h
    · exact absurd hb (not_lt.mpr h)
    · exact absurd hd (not_lt.mpr h)
    · omega
  · intro y s ivs m c hc
    obtain ⟨h0, hlt, -⟩ :=
      extraerAux_cotas y s (duracion_total y s) m 0 ivs c hc
    unfold mkCue
    rw [if_pos ⟨h0, lt_of_le_of_lt h0 hlt, hlt⟩]

/-- Witness for C8: a degenerate cue and a non-positive bpm are rejected;
an extracted cue passes validation. -/
theorem C8_validacion_witness :
    mkCue "x" 2 1 [] = none ∧
      mkAnalysisResult (-3) 5 2 [] = none ∧
      mkCue "cue_0" 0 4 [1, 2, 3, 4] =
        some ⟨"cue_0", 0, 4, [1, 2, 3, 4]⟩ :=
  ⟨C8_validacion_construccion.1 "x" 2 1 [] (by decide),
    C8_validacion_construccion.2.1 (-3) 5 2 [] (Or.inl (by decide)),
    C8_validacion_construccion.2.2 [1, 2, 3, 4] 1 [(0, 4)] 0
      ⟨"cue_0", 0, 4, [1, 2, 3, 4]⟩ (by decide)⟩

/-! Claim C3. -/

/-- C3: the Downsampler's length law — for `M > 0` the output length is
`min(L, M)`; for `M ≤ 0` the sequence is returned unchanged; and for
`L ≥ 2`, `M ≥ 2` the output starts with the first original value and ends
with the last one. -/
theorem C3_downsample_ley (seg : List ℚ) (M : ℤ) :
    (0 < M → (_downsample seg M).length = min seg.length M.toNat) ∧
    (M ≤ 0 → _downsample seg M = seg) ∧
    (2 ≤ seg.length → 2 ≤ M →
      (_downsample seg M).headD 0 = seg.headD 0 ∧
      (_downsample seg M).getLastD 0 = seg.getLastD 0) := by
  refine ⟨?_, ?_, ?_⟩
  · intro hM
    unfold _downsample
    by_cases h0 : seg.length = 0
    · simp [h0]
    · rw [if_neg h0]
      by_cases h1 : M ≤ 0 ∨ (seg.length : ℤ) ≤ M
      · rw [if_pos h1]
        rcases h1 with h1 | h1
        · omega
        · have h2 : seg.length ≤ M.toNat := by omega
          rw [min_eq_left h2]
      · rw [if_neg h1]
        push_neg at h1
        rw [List.length_map, List.length_range]
        have h2 : M.toNat ≤ seg.length := by omega
        rw [min_eq_right h2]
  · intro hM
    unfold _downsample
    by_cases h0 : seg.length = 0
    · rw [if_pos h0]
      exact (List.length_eq_zero.mp h0).symm
    · rw [if_neg h0, if_pos (Or.inl hM)]
  · intro hL hM
    unfold _downsample
    have h0 : ¬seg.length = 0 := by omega
    rw [if_neg h0]
    by_cases h1 : M ≤ 0 ∨ (seg.length : ℤ) ≤ M
    · rw [if_pos h1]
      exact ⟨rfl, rfl⟩
    · rw [if_neg h1]
      push_neg at h1
      have hM2 : 2 ≤ M.toNat := by omega
      constructor
      · obtain ⟨m', hm⟩ : ∃ m', M.toNat = m' + 1 := ⟨M.toNat - 1, by omega⟩
        rw [hm, List.range_succ_eq_map]
        obtain ⟨x, rest, hx⟩ :=
          List.exists_cons_of_ne_nil (l := seg) (List.ne_nil_of_length_pos (by omega))
        rw [hx]
        simp
      · have hrange : List.range M.toNat =
            List.range (M.toNat - 1) ++ [M.toNat - 1] := by
          rw [← List.range_succ]
          congr 1
          omega
        rw [hrange, List.map_append, List.map_cons, List.map_nil,
          List.getLastD_concat]
        have hdiv : (M.toNat - 1) * (seg.length - 1) / (M.toNat - 1) =
            seg.length - 1 := Nat.mul_div_cancel_left _ (by omega)
        rw [hdiv, List.getLastD_eq_getLast?, List.getLast?_eq_getElem?,
          List.getD_eq_getElem?_getD]

/-- Witness for C3: the law instantiated at a five-point sequence with
`M = 2` and at `M = -1`. -/
theorem C3_downsample_witness :
    ((_downsample [3, 1, 4, 1, 5] 2).length =
        min ([3, 1, 4, 1, 5] : List ℚ).length (2 : ℤ).toNat) ∧
      _downsample [3, 1, 4, 1, 5] (-1) = [3, 1, 4, 1, 5] ∧
      (_downsample [3, 1, 4, 1, 5] 2).headD 0 =
        ([3, 1, 4, 1, 5] : List ℚ).headD 0 ∧
      (_downsample [3, 1, 4, 1, 5] 2).getLastD 0 =
        ([3, 1, 4, 1, 5] : List ℚ).getLastD 0 :=
  ⟨(C3_downsample_ley [3, 1, 4, 1, 5] 2).1 (by decide),
    (C3_downsample_ley [3, 1, 4, 1, 5] (-1)).2.1 (by decide),
    ((C3_downsample_ley [3, 1, 4, 1, 5] 2).2.2 (by decide) (by decide)).1,
    ((C3_downsample_ley [3, 1, 4, 1, 5] 2).2.2 (by decide) (by decide)).2⟩

/-! Claim C7. -/

/-- The names produced by the extraction loop starting at counter `k` are
exactly `cue_{i}` for the enumerated input intervals (from `k`) that pass
the emission test, in order. -/
lemma extraerAux_nombres (y : List ℚ) (sr : ℕ) (dur : ℚ) (m : ℤ) :
    ∀ (k : ℕ) (ivs : List (ℚ × ℚ)),
      (extraerAux y sr dur m k ivs).map Cue.nombre =
        ((ivs.enumFrom k).filter fun p => emite y sr dur p.2).map
          fun p => "cue_" ++ toString p.1 := by
  intro k ivs
  induction ivs generalizing k with
  | nil => rfl
  | cons iv rest ih =>
    rw [extraerAux, List.enumFrom_cons]
    dsimp only
    by_cases h1 : min iv.2 dur ≤ max 0 iv.1
    · rw [if_pos h1]
      have he : emite y sr dur iv = false := by
        unfold emite
        dsimp only
        rw [decide_eq_true h1]
        rfl
      rw [List.filter_cons, if_neg (by simp [he])]
      exact ih _
    · rw [if_neg h1]
      by_cases h2 : ((y.drop ((⌊max 0 iv.1 * sr⌋).toNat)).take
          ((⌊min iv.2 dur * sr⌋).toNat - (⌊max 0 iv.1 * sr⌋).toNat)).length = 0
      · rw [if_pos h2]
        have he : emite y sr dur iv = false := by
          unfold emite
          dsimp only
          rw [decide_eq_false h1, decide_eq_true h2]
          rfl
        rw [List.filter_cons, if_neg (by simp [he])]
        exact ih _
      · rw [if_neg h2]
        have he : emite y sr dur iv = true := by
          unfold emite
          dsimp only
          rw [decide_eq_false h1, decide_eq_false h2]
          rfl
        rw [List.filter_cons, if_pos (by simp [he])]
        rw [List.map_cons, List.map_cons]
        congr 1
        exact ih _

/-- C7: every emitted Cue is named `cue_{i}` with `i` the zero-based
ordinal of its interval in the *input* interval list (the loop counter):
the name list is the enumeration of the input intervals filtered by the
emission test, so skipped intervals leave gaps in the numeric suffixes. -/
theorem C7_nombres_por_ordinal (y : List ℚ) (sr : ℕ) (ivs : List (ℚ × ℚ))
    (m : ℤ) :
    (_extraer_cues y sr ivs m).map Cue.nombre =
      (ivs.enum.filter fun p => emite y sr (duracion_total y sr) p.2).map
        fun p => "cue_" ++ toString p.1 :=
  extraerAux_nombres y sr (duracion_total y sr) m 0 ivs

end QuantumLive
